import Mathlib

/-!
Verification of the wizard controller of the TEEOS Raspberry Pi image builder
frontend (src/frontend_reactjs/src/App.js).

The controller state is the pair (activeStepId, completed).  The step list is
built once per configuration from environment values; its content sections
depend on feature flags, but the step identifiers are static.  JSX bodies, tip
strings, badges and descriptions are presentational content opaque to the
controller and are not modelled; the fields the controller and the claims
inspect (identifiers, section headings, resource links) are kept.

Host-provided operations (JSON.parse and the URL constructor) are modelled as
parameters: `jsonParse` returns `none` where JSON.parse throws, `isValidUrl`
says whether `new URL(value)` succeeds.
-/

/-- Truthiness of the `showAdvanced` property of the parsed feature-flag
structure (the only property the code reads). -/
structure FeatureFlags where
  showAdvanced : Bool
deriving DecidableEq

/-- The `{}` fallback used by the code: no properties, so `showAdvanced` is falsy. -/
def emptyFlags : FeatureFlags := ⟨false⟩

/-- Host model: the behaviour of the runtime's JSON.parse and URL
constructor.  `jsonParse s = none` models JSON.parse throwing on `s`;
`isValidUrl s = true` models `new URL(s)` succeeding. -/
structure Host where
  jsonParse : String → Option FeatureFlags
  isValidUrl : String → Bool

/-- `parseJsonEnv` from App.js: returns `fallback` on a falsy value (unset env
vars are modelled as the empty string) and on a JSON.parse failure. -/
def parseJsonEnv (h : Host) (envValue : String) (fallback : FeatureFlags) : FeatureFlags :=
  if envValue = "" then fallback
  else match h.jsonParse envValue with
    | some v => v
    | none => fallback

/-- `safeUrl` from App.js: returns `fallback` on a falsy value or when the URL
constructor would throw, otherwise the value itself. -/
def safeUrl (h : Host) (value fallback : String) : String :=
  if value = "" then fallback
  else if h.isValidUrl value then value else fallback

/-- The environment variables the app reads; an unset variable is the empty
string (JS `x || ""` coerces `undefined` to `""`). -/
structure Env where
  featureFlagsJson : String
  experimentsRaw : String
  backendUrl : String
  apiBase : String
  wsUrl : String
  frontendUrl : String
deriving DecidableEq

/-- `featureFlags` memo: parse REACT_APP_FEATURE_FLAGS with fallback `{}`. -/
def featureFlags (h : Host) (e : Env) : FeatureFlags :=
  parseJsonEnv h e.featureFlagsJson emptyFlags

/-- JS `String.prototype.toLowerCase`, modelled character-wise.  (Lean's
`Char.toLower` lowercases basic latin letters, which agrees with JS on every
ASCII value; it is applied per character exactly as `toLowerCase` is.) -/
def jsToLower (s : String) : String := ⟨s.data.map Char.toLower⟩

/-- `experimentsEnabled` memo:
`String(process.env.REACT_APP_EXPERIMENTS_ENABLED || "").toLowerCase() === "true"`. -/
def experimentsEnabled (e : Env) : Bool :=
  jsToLower e.experimentsRaw == "true"

/-- A labeled resource link. -/
structure Link where
  label : String
  href : String
deriving DecidableEq

/-- A wizard step as the controller sees it: identifier, title, section
headings (bodies are opaque JSX) and resource links.  Steps without a `links`
key in the source get `[]`. -/
structure Step where
  id : String
  title : String
  sections : List String
  links : List Link
deriving DecidableEq

/-- The `steps` memo of App.js: the seven statically defined steps.  The
feature flags and the experiment switch gate the extra "configure" section,
and a configured WebSocket URL gates the extra "verify" section; the URL
values feed the overview and setup links. -/
def steps (h : Host) (e : Env) : List Step :=
  let backendUrl := safeUrl h e.backendUrl ""
  let apiBase := safeUrl h e.apiBase ""
  let wsUrl := safeUrl h e.wsUrl ""
  let frontendUrl := safeUrl h e.frontendUrl ""
  [ { id := "overview", title := "Overview",
      sections := ["Goal", "Recommended prerequisites"],
      links := (([ (if frontendUrl = "" then none
                    else some { label := "Frontend URL", href := frontendUrl }),
                   (if backendUrl = "" then none
                    else some { label := "Backend URL", href := backendUrl }) ] :
          List (Option Link)).filterMap id) },
    { id := "setup", title := "Set up environment",
      sections := ["Install base tools", "Directory layout"],
      links := if apiBase = "" then [] else [{ label := "API Base", href := apiBase }] },
    { id := "sources", title := "Get sources",
      sections := ["Clone the image builder repo", "Sync dependencies"],
      links := [] },
    { id := "configure", title := "Configure build",
      sections := ["Choose target: Raspberry Pi 4"] ++
        (if (featureFlags h e).showAdvanced || experimentsEnabled e then
          ["Advanced options (optional)"] else []),
      links := [] },
    { id := "build", title := "Build image",
      sections := ["Run the build command", "Expected output"],
      links := [] },
    { id := "flash", title := "Flash & boot",
      sections := ["Flash the image", "Boot checklist"],
      links := [] },
    { id := "verify", title := "Verify TEEOS",
      sections := ["Validate at runtime"] ++
        (if wsUrl = "" then [] else ["Optional: Live status endpoint"]),
      links := [] } ]

/-- The controller state: the selected step identifier and the completion set
(a JS `Set` of identifiers). -/
structure WizardState where
  activeStepId : String
  completed : Finset String
deriving DecidableEq

/-- The initial state: `useState("overview")` and `useState(new Set())`. -/
def initialState : WizardState := ⟨"overview", ∅⟩

/-- JS `Array.prototype.findIndex`: index of the first match, `-1` if none. -/
def jsFindIndex (p : Step → Bool) (l : List Step) : Int :=
  match l.findIdx? p with
  | some i => (i : Int)
  | none => -1

/-- `activeIndex` of App.js for a given identifier:
`Math.max(0, steps.findIndex((s) => s.id === activeStepId))`. -/
def activeIndexOf (h : Host) (e : Env) (id : String) : Nat :=
  (max 0 (jsFindIndex (fun s => s.id == id) (steps h e))).toNat

/-- `activeStep` of App.js for a given identifier:
`steps[activeIndex] || steps[0]` (`none` only if the list were empty). -/
def activeStepOf (h : Host) (e : Env) (id : String) : Option Step :=
  ((steps h e)[activeIndexOf h e id]?).orElse (fun _ => (steps h e)[0]?)

/-- `activeIndex` for a state. -/
def activeIndex (h : Host) (e : Env) (st : WizardState) : Nat :=
  activeIndexOf h e st.activeStepId

/-- The derived active step for a state. -/
def activeStep? (h : Host) (e : Env) (st : WizardState) : Option Step :=
  activeStepOf h e st.activeStepId

/-- `selectStep(id)`: the sidebar button's `onClick`, `setActiveStepId(step.id)`
called with an arbitrary identifier. -/
def selectStep (id : String) (st : WizardState) : WizardState :=
  { st with activeStepId := id }

/-- The `useEffect` reconciliation of App.js: if no step of the current list
carries the active identifier, fall back to `steps[0]?.id || "overview"`. -/
def reconcile (h : Host) (e : Env) (st : WizardState) : WizardState :=
  if (steps h e).any (fun s => s.id == st.activeStepId) then st
  else { st with activeStepId :=
    match ((steps h e)[0]?).map Step.id with
    | some i => if i = "" then "overview" else i
    | none => "overview" }

/-- `goNext()`: `steps[Math.min(steps.length - 1, activeIndex + 1)]`, set if
defined.  (For the always-nonempty list the index is in range; on an empty
list JS indexes with `-1` and our `Nat` subtraction with `0`, and both yield
`undefined`/`none`, hence a no-op either way.) -/
def goNext (h : Host) (e : Env) (st : WizardState) : WizardState :=
  match (steps h e)[min ((steps h e).length - 1) (activeIndex h e st + 1)]? with
  | some nxt => { st with activeStepId := nxt.id }
  | none => st

/-- `goBack()`: `steps[Math.max(0, activeIndex - 1)]`, set if defined.
`Nat` subtraction truncates at zero exactly like `Math.max(0, i - 1)`. -/
def goBack (h : Host) (e : Env) (st : WizardState) : WizardState :=
  match (steps h e)[activeIndex h e st - 1]? with
  | some prv => { st with activeStepId := prv.id }
  | none => st

/-- `toggleComplete()`: delete the active step's identifier from the completion
set if present, insert it otherwise.  (The `none` branch is unreachable: the
step list is never empty.) -/
def toggleComplete (h : Host) (e : Env) (st : WizardState) : WizardState :=
  match activeStep? h e st with
  | some s =>
    { st with completed :=
        if s.id ∈ st.completed then st.completed.erase s.id
        else insert s.id st.completed }
  | none => st

/-- JS `Math.round`: round half toward positive infinity. -/
def jsRound (q : ℚ) : ℤ := ⌊q + 1 / 2⌋

/-- `progressPct`: `Math.round((completed.size / steps.length) * 100)`.
JS division of a size by a zero length is not a finite number (NaN), which is
modelled as `none`; that branch is unreachable because the list always has
seven steps. -/
def progressPct (h : Host) (e : Env) (st : WizardState) : Option ℤ :=
  if (steps h e).length = 0 then none
  else some (jsRound (((st.completed.card : ℚ) / ((steps h e).length : ℚ)) * 100))

/-- States reachable from the initial state by the controller operations,
under arbitrary (and possibly changing) configurations. -/
inductive Reachable : WizardState → Prop where
  | init : Reachable initialState
  | select (id : String) (st : WizardState) : Reachable st → Reachable (selectStep id st)
  | next (h : Host) (e : Env) (st : WizardState) : Reachable st → Reachable (goNext h e st)
  | back (h : Host) (e : Env) (st : WizardState) : Reachable st → Reachable (goBack h e st)
  | toggle (h : Host) (e : Env) (st : WizardState) : Reachable st → Reachable (toggleComplete h e st)
  | recon (h : Host) (e : Env) (st : WizardState) : Reachable st → Reachable (reconcile h e st)

/-- A host on which JSON.parse always throws and no URL is valid. -/
def host0 : Host := ⟨fun _ => none, fun _ => false⟩

/-- The all-unset environment. -/
def env0 : Env := ⟨"", "", "", "", "", ""⟩

/-- An environment that sets only REACT_APP_EXPERIMENTS_ENABLED. -/
def mkExpEnv (v : String) : Env := ⟨"", v, "", "", "", ""⟩

/-- An environment whose feature-flag value is not JSON and whose three
link-producing URL values are all invalid. -/
def envBad : Env := ⟨"not json", "", "not a url b", "not a url a", "", "not a url f"⟩

-- Helper lemmas -------------------------------------------------------------

/-- A value the URL constructor rejects is replaced by the empty fallback. -/
theorem safeUrl_invalid (h : Host) (v : String) (hu : h.isValidUrl v = false) :
    safeUrl h v "" = "" := by
  by_cases hz : v = ""
  · simp [safeUrl, hz]
  · simp [safeUrl, hz, hu]

/-- Exhaustive description of the resource links of the whole step list: every
link of every step is the frontend, backend or API-base link, and it is
present only when its configured value survived `safeUrl` (is non-empty).
The WebSocket value produces no link (it only gates a "verify" section). -/
theorem steps_link_cases (h : Host) (e : Env) :
    ∀ s ∈ steps h e, ∀ l ∈ s.links,
      (l = ⟨"Frontend URL", safeUrl h e.frontendUrl ""⟩ ∧ ¬safeUrl h e.frontendUrl "" = "") ∨
      (l = ⟨"Backend URL", safeUrl h e.backendUrl ""⟩ ∧ ¬safeUrl h e.backendUrl "" = "") ∨
      (l = ⟨"API Base", safeUrl h e.apiBase ""⟩ ∧ ¬safeUrl h e.apiBase "" = "") := by
  intro s hs l hl
  simp only [steps, List.mem_cons, List.not_mem_nil, or_false] at hs
  rcases hs with rfl | rfl | rfl | rfl | rfl | rfl | rfl
  · by_cases hf : safeUrl h e.frontendUrl "" = ""
    · by_cases hb : safeUrl h e.backendUrl "" = ""
      · simp [List.filterMap_cons, List.filterMap_nil, hf, hb] at hl
      · simp [List.filterMap_cons, List.filterMap_nil, hf, hb] at hl
        exact Or.inr (Or.inl ⟨by rw [hl], hb⟩)
    · by_cases hb : safeUrl h e.backendUrl "" = ""
      · simp [List.filterMap_cons, List.filterMap_nil, hf, hb] at hl
        exact Or.inl ⟨by rw [hl], hf⟩
      · simp [List.filterMap_cons, List.filterMap_nil, hf, hb] at hl
        rcases hl with hl | hl
        · exact Or.inl ⟨by rw [hl], hf⟩
        · exact Or.inr (Or.inl ⟨by rw [hl], hb⟩)
  · by_cases ha : safeUrl h e.apiBase "" = ""
    · simp [ha] at hl
    · simp [ha] at hl
      exact Or.inr (Or.inr ⟨by rw [hl], ha⟩)
  · exact absurd hl (List.not_mem_nil l)
  · exact absurd hl (List.not_mem_nil l)
  · exact absurd hl (List.not_mem_nil l)
  · exact absurd hl (List.not_mem_nil l)
  · exact absurd hl (List.not_mem_nil l)

/-- The step identifiers are the same seven, in order, for every configuration. -/
theorem steps_ids (h : Host) (e : Env) :
    (steps h e).map Step.id =
      ["overview", "setup", "sources", "configure", "build", "flash", "verify"] := rfl

theorem steps_length (h : Host) (e : Env) : (steps h e).length = 7 := rfl


theorem jsFindIndex_notMem (h : Host) (e : Env) (id : String)
    (hid : id ∉ ["overview", "setup", "sources", "configure", "build", "flash", "verify"]) :
    jsFindIndex (fun s => s.id == id) (steps h e) = -1 := by
  have hnone : (steps h e).findIdx? (fun s => s.id == id) = none := by
    rw [List.findIdx?_eq_none_iff]
    intro x hx
    have hxid : x.id ∈ ["overview", "setup", "sources", "configure", "build", "flash", "verify"] := by
      rw [← steps_ids h e]
      exact List.mem_map_of_mem Step.id hx
    have hne : x.id ≠ id := fun hcontra => hid (hcontra ▸ hxid)
    exact beq_eq_false_iff_ne.mpr hne
  rw [jsFindIndex, hnone]

theorem activeIndexOf_lt (h : Host) (e : Env) (id : String) : activeIndexOf h e id < 7 := by
  by_cases hm : id ∈ ["overview", "setup", "sources", "configure", "build", "flash", "verify"]
  · simp only [List.mem_cons, List.not_mem_nil, or_false] at hm
    rcases hm with rfl | rfl | rfl | rfl | rfl | rfl | rfl
    · show (0 : Nat) < 7; decide
    · show (1 : Nat) < 7; decide
    · show (2 : Nat) < 7; decide
    · show (3 : Nat) < 7; decide
    · show (4 : Nat) < 7; decide
    · show (5 : Nat) < 7; decide
    · show (6 : Nat) < 7; decide
  · rw [activeIndexOf, jsFindIndex_notMem h e id hm]; decide

theorem activeStepOf_eq (h : Host) (e : Env) (id : String) :
    ∃ s, activeStepOf h e id = some s ∧ s ∈ steps h e := by
  have hlt : activeIndexOf h e id < (steps h e).length := by
    rw [steps_length]; exact activeIndexOf_lt h e id
  have hs : (steps h e)[activeIndexOf h e id]? = some ((steps h e)[activeIndexOf h e id]) :=
    List.getElem?_eq_some_iff.mpr ⟨hlt, rfl⟩
  exact ⟨_, by rw [activeStepOf, hs]; rfl, List.getElem_mem hlt⟩

theorem activeStep?_id_mem (h : Host) (e : Env) (st : WizardState) (s : Step)
    (hs : activeStep? h e st = some s) :
    s.id ∈ ["overview", "setup", "sources", "configure", "build", "flash", "verify"] := by
  obtain ⟨s', h1, h2⟩ := activeStepOf_eq h e st.activeStepId
  rw [activeStep?, h1] at hs
  cases hs
  rw [← steps_ids h e]
  exact List.mem_map_of_mem Step.id h2

theorem selectStep_completed (id : String) (st : WizardState) :
    (selectStep id st).completed = st.completed := rfl

theorem goNext_completed (h : Host) (e : Env) (st : WizardState) :
    (goNext h e st).completed = st.completed := by
  unfold goNext; split <;> rfl

theorem goBack_completed (h : Host) (e : Env) (st : WizardState) :
    (goBack h e st).completed = st.completed := by
  unfold goBack; split <;> rfl

theorem reconcile_completed (h : Host) (e : Env) (st : WizardState) :
    (reconcile h e st).completed = st.completed := by
  unfold reconcile; split <;> rfl

theorem toggleComplete_activeStepId (h : Host) (e : Env) (st : WizardState) :
    (toggleComplete h e st).activeStepId = st.activeStepId := by
  unfold toggleComplete; split <;> rfl

/-- Invariant: every reachable completion set holds only step identifiers. -/
theorem reachable_completed_subset (st : WizardState) (hr : Reachable st) :
    ∀ x ∈ st.completed,
      x ∈ ["overview", "setup", "sources", "configure", "build", "flash", "verify"] := by
  induction hr with
  | init => intro x hx; simp [initialState] at hx
  | select id st _ ih => rw [selectStep_completed]; exact ih
  | next h e st _ ih => rw [goNext_completed]; exact ih
  | back h e st _ ih => rw [goBack_completed]; exact ih
  | recon h e st _ ih => rw [reconcile_completed]; exact ih
  | toggle h e st _ ih =>
    intro x hx
    unfold toggleComplete at hx
    split at hx
    case _ s hs =>
      simp only at hx
      split at hx
      · exact ih x (Finset.mem_of_mem_erase hx)
      · rcases Finset.mem_insert.mp hx with rfl | hx'
        · exact activeStep?_id_mem h e st s hs
        · exact ih x hx'
    case _ => exact ih x hx

-- Claim theorems ------------------------------------------------------------

/-- C10: for every configuration (any feature-flag structure, experiment
switch, and URL values), the step list contains exactly the seven identifiers
"overview", "setup", "sources", "configure", "build", "flash", "verify" in
that order; configuration never changes the set or order of identifiers. -/
theorem claim_C10 (h : Host) (e : Env) :
    (steps h e).map Step.id =
      ["overview", "setup", "sources", "configure", "build", "flash", "verify"] :=
  steps_ids h e

/-- C2: computeProgress never divides by zero: the step list has nonzero
length for every configuration (so the empty-list branch of the claim is
vacuous), and the progress percentage equals the completed count divided by
the total step count, times 100, rounded to the nearest integer. -/
theorem claim_C2 (h : Host) (e : Env) (st : WizardState) :
    (steps h e).length ≠ 0 ∧
    ((steps h e).length = 0 → progressPct h e st = some 0) ∧
    progressPct h e st =
      some (jsRound (((st.completed.card : ℚ) / ((steps h e).length : ℚ)) * 100)) := by
  refine ⟨by rw [steps_length]; decide, fun h0 => absurd h0 (by rw [steps_length]; decide), ?_⟩
  rw [progressPct, if_neg (by rw [steps_length]; decide)]

/-- C2 witness at a concrete configuration and state. -/
theorem claim_C2_witness :
    (steps host0 env0).length ≠ 0 ∧
    progressPct host0 env0 initialState =
      some (jsRound (((initialState.completed.card : ℚ) /
        ((steps host0 env0).length : ℚ)) * 100)) :=
  ⟨(claim_C2 host0 env0 initialState).1, (claim_C2 host0 env0 initialState).2.2⟩

/-- C9: the experiment switch is true exactly when the configured value,
coerced to a string and lowercased, equals "true"; absent, "1", "TRUE " with
trailing whitespace, and "yes" all disable experiments. -/
theorem claim_C9 :
    (∀ e : Env, experimentsEnabled e = true ↔ jsToLower e.experimentsRaw = "true") ∧
    experimentsEnabled (mkExpEnv "") = false ∧
    experimentsEnabled (mkExpEnv "1") = false ∧
    experimentsEnabled (mkExpEnv "TRUE ") = false ∧
    experimentsEnabled (mkExpEnv "yes") = false ∧
    experimentsEnabled (mkExpEnv "TRUE") = true := by
  refine ⟨fun e => ?_, by decide, by decide, by decide, by decide, by decide⟩
  rw [experimentsEnabled]
  exact beq_iff_eq

/-- C9 witness: the characterisation applied at a mixed-case value. -/
theorem claim_C9_witness : experimentsEnabled (mkExpEnv "True") = true :=
  (claim_C9.1 (mkExpEnv "True")).mpr (by decide)

/-- C3: goNext at the last step and goBack at the first step are no-ops
(clamped, not wrapped), for every wizard state and configuration. -/
theorem claim_C3 (h : Host) (e : Env) (st : WizardState) :
    ((steps h e).getLast?.map Step.id = some st.activeStepId → goNext h e st = st) ∧
    (((steps h e)[0]?).map Step.id = some st.activeStepId → goBack h e st = st) := by
  obtain ⟨a, c⟩ := st
  constructor
  · intro hl
    have ha : a = "verify" := by
      have hv : (steps h e).getLast?.map Step.id = some "verify" := rfl
      rw [hv] at hl
      exact (Option.some.inj hl).symm
    subst ha
    rfl
  · intro hl
    have ha : a = "overview" := by
      have hv : ((steps h e)[0]?).map Step.id = some "overview" := rfl
      rw [hv] at hl
      exact (Option.some.inj hl).symm
    subst ha
    rfl

/-- C3 witness: clamping at both boundaries at a concrete configuration. -/
theorem claim_C3_witness :
    goNext host0 env0 ⟨"verify", ∅⟩ = ⟨"verify", ∅⟩ ∧
    goBack host0 env0 ⟨"overview", ∅⟩ = ⟨"overview", ∅⟩ :=
  ⟨(claim_C3 host0 env0 ⟨"verify", ∅⟩).1 rfl, (claim_C3 host0 env0 ⟨"overview", ∅⟩).2 rfl⟩

/-- C1 counterexample: with the active step "setup", selecting the unknown
identifier "bogus" does not leave the active step unchanged — the derived
active step falls back to the first step "overview". -/
theorem claim_C1_counterexample :
    "bogus" ∉ (steps host0 env0).map Step.id ∧
    (activeStep? host0 env0 ⟨"setup", ∅⟩).map Step.id = some "setup" ∧
    (activeStep? host0 env0 (selectStep "bogus" ⟨"setup", ∅⟩)).map Step.id =
      some "overview" :=
  ⟨by decide, rfl, rfl⟩

/-- C1 (amended): for every step identifier not present in the current step
list, invoking selectStep with that identifier resets the active step to the
first step of the list (no error raised; the subsequent reconciliation effect
also resets the stored identifier to the first step's identifier), rather
than leaving the active step unchanged. -/
theorem claim_C1 (h : Host) (e : Env) (st : WizardState) (id : String)
    (hid : id ∉ (steps h e).map Step.id) :
    activeStep? h e (selectStep id st) = (steps h e)[0]? ∧
    (reconcile h e (selectStep id st)).activeStepId = "overview" := by
  have hid' : id ∉ ["overview", "setup", "sources", "configure", "build", "flash", "verify"] := by
    rwa [steps_ids] at hid
  have h0 : activeIndexOf h e id = 0 := by
    rw [activeIndexOf, jsFindIndex_notMem h e id hid']
    rfl
  have hany : ¬((steps h e).any (fun s => s.id == id) = true) := by
    rw [List.any_eq_true]
    rintro ⟨s, hsmem, hbeq⟩
    exact hid ((beq_iff_eq.mp hbeq) ▸ List.mem_map_of_mem Step.id hsmem)
  constructor
  · show activeStepOf h e id = (steps h e)[0]?
    rw [activeStepOf, h0]
    rfl
  · have hany2 : ¬(((steps h e).any fun s => s.id == (selectStep id st).activeStepId) = true) :=
      hany
    rw [reconcile, if_neg hany2]
    rfl

/-- C1 witness: the amended fallback at a concrete unknown identifier. -/
theorem claim_C1_witness :
    activeStep? host0 env0 (selectStep "zzz" ⟨"overview", ∅⟩) = (steps host0 env0)[0]? ∧
    (reconcile host0 env0 (selectStep "zzz" ⟨"overview", ∅⟩)).activeStepId = "overview" :=
  claim_C1 host0 env0 ⟨"overview", ∅⟩ "zzz" (by decide)

/-- C7: the selected-step invariant is maintained under step-list rebuilds:
for the list built from any new configuration, a present active identifier is
left unchanged, an absent one is reset to the new list's first step
identifier, and afterwards the active identifier always names a step of the
current list. -/
theorem claim_C7 (h : Host) (e : Env) (st : WizardState) :
    (st.activeStepId ∈ (steps h e).map Step.id → reconcile h e st = st) ∧
    (st.activeStepId ∉ (steps h e).map Step.id →
      ((steps h e)[0]?).map Step.id = some (reconcile h e st).activeStepId) ∧
    (reconcile h e st).activeStepId ∈ (steps h e).map Step.id := by
  have hkeep : st.activeStepId ∈ (steps h e).map Step.id → reconcile h e st = st := by
    intro hmem
    obtain ⟨s, hsmem, hsid⟩ := List.mem_map.mp hmem
    have hc : ((steps h e).any fun s2 => s2.id == st.activeStepId) = true := by
      rw [List.any_eq_true]
      exact ⟨s, hsmem, beq_iff_eq.mpr hsid⟩
    rw [reconcile, if_pos hc]
  have hreset : st.activeStepId ∉ (steps h e).map Step.id →
      (reconcile h e st).activeStepId = "overview" := by
    intro hmem
    have hany : ¬((steps h e).any (fun s => s.id == st.activeStepId) = true) := by
      rw [List.any_eq_true]
      rintro ⟨s, hsmem, hbeq⟩
      exact hmem ((beq_iff_eq.mp hbeq) ▸ List.mem_map_of_mem Step.id hsmem)
    rw [reconcile, if_neg hany]
    rfl
  refine ⟨hkeep, fun hm => ?_, ?_⟩
  · rw [hreset hm]
    rfl
  · by_cases hm : st.activeStepId ∈ (steps h e).map Step.id
    · rw [hkeep hm]
      exact hm
    · rw [hreset hm, steps_ids]
      decide

/-- C7 witness: both branches of the reconciliation at concrete states. -/
theorem claim_C7_witness :
    reconcile host0 env0 ⟨"setup", ∅⟩ = ⟨"setup", ∅⟩ ∧
    ((steps host0 env0)[0]?).map Step.id =
      some (reconcile host0 env0 ⟨"gone", ∅⟩).activeStepId :=
  ⟨(claim_C7 host0 env0 ⟨"setup", ∅⟩).1 (by decide),
   (claim_C7 host0 env0 ⟨"gone", ∅⟩).2.1 (by decide)⟩

/-- C5: toggleComplete removes the active step's identifier from the
completion set if present and inserts it otherwise, and applying it twice
returns the whole state (in particular the completion set) to its prior
value, for every wizard state and configuration. -/
theorem claim_C5 (h : Host) (e : Env) (st : WizardState) :
    (∃ s, activeStep? h e st = some s ∧
      ((s.id ∈ st.completed ∧
          (toggleComplete h e st).completed = st.completed.erase s.id) ∨
       (s.id ∉ st.completed ∧
          (toggleComplete h e st).completed = insert s.id st.completed))) ∧
    toggleComplete h e (toggleComplete h e st) = st := by
  obtain ⟨a, c⟩ := st
  obtain ⟨s, hs0, hsmem⟩ := activeStepOf_eq h e a
  have hs1 : activeStep? h e ⟨a, c⟩ = some s := hs0
  constructor
  · refine ⟨s, hs1, ?_⟩
    by_cases hc : s.id ∈ c
    · exact Or.inl ⟨hc, by simp only [toggleComplete, hs1, if_pos hc]⟩
    · exact Or.inr ⟨hc, by simp only [toggleComplete, hs1, if_neg hc]⟩
  · by_cases hc : s.id ∈ c
    · have h1 : toggleComplete h e ⟨a, c⟩ = ⟨a, c.erase s.id⟩ := by
        simp only [toggleComplete, hs1, if_pos hc]
      rw [h1]
      have hs2 : activeStep? h e ⟨a, c.erase s.id⟩ = some s := hs0
      have h2 : toggleComplete h e ⟨a, c.erase s.id⟩ =
          ⟨a, insert s.id (c.erase s.id)⟩ := by
        simp only [toggleComplete, hs2, if_neg (Finset.not_mem_erase s.id c)]
      rw [h2, Finset.insert_erase hc]
    · have h1 : toggleComplete h e ⟨a, c⟩ = ⟨a, insert s.id c⟩ := by
        simp only [toggleComplete, hs1, if_neg hc]
      rw [h1]
      have hs2 : activeStep? h e ⟨a, insert s.id c⟩ = some s := hs0
      have h2 : toggleComplete h e ⟨a, insert s.id c⟩ =
          ⟨a, (insert s.id c).erase s.id⟩ := by
        simp only [toggleComplete, hs2, if_pos (Finset.mem_insert_self s.id c)]
      rw [h2, Finset.erase_insert hc]

/-- C4: from every wizard state whose active step is neither the first nor
the last step of the list, goNext followed by goBack returns the state (in
particular the active step) to the original. -/
theorem claim_C4 (h : Host) (e : Env) (st : WizardState) (s : Step)
    (hs : activeStep? h e st = some s)
    (hfirst : (steps h e)[0]? ≠ some s)
    (hlast : (steps h e).getLast? ≠ some s) :
    goBack h e (goNext h e st) = st := by
  obtain ⟨a, c⟩ := st
  by_cases hm : a ∈ ["overview", "setup", "sources", "configure", "build", "flash", "verify"]
  · simp only [List.mem_cons, List.not_mem_nil, or_false] at hm
    rcases hm with rfl | rfl | rfl | rfl | rfl | rfl | rfl
    · exact absurd
        ((show (steps h e)[0]? = activeStep? h e ⟨"overview", c⟩ from rfl).trans hs) hfirst
    · rfl
    · rfl
    · rfl
    · rfl
    · rfl
    · exact absurd
        ((show (steps h e).getLast? = activeStep? h e ⟨"verify", c⟩ from rfl).trans hs) hlast
  · have h0 : activeIndexOf h e a = 0 := by
      rw [activeIndexOf, jsFindIndex_notMem h e a hm]
      rfl
    have heq : activeStep? h e ⟨a, c⟩ = (steps h e)[0]? := by
      show activeStepOf h e a = (steps h e)[0]?
      rw [activeStepOf, h0]
      rfl
    rw [heq] at hs
    exact absurd hs hfirst

/-- C4 witness: the round trip at the interior step "build". -/
theorem claim_C4_witness :
    goBack host0 env0 (goNext host0 env0 ⟨"build", ∅⟩) = ⟨"build", ∅⟩ :=
  claim_C4 host0 env0 ⟨"build", ∅⟩
    { id := "build", title := "Build image",
      sections := ["Run the build command", "Expected output"], links := [] }
    (by decide) (by decide) (by decide)

/-- C6: over the (always non-empty) step list, computeProgress is 0 when the
completion set is empty and 100 when every step identifier is completed.  The
hypothesis that the completion set holds only step identifiers is the data
model's reading of a wizard state and is an invariant of every reachable
state (`reachable_completed_subset`). -/
theorem claim_C6 (h : Host) (e : Env) (st : WizardState)
    (hsub : ∀ x ∈ st.completed, x ∈ (steps h e).map Step.id) :
    (steps h e) ≠ [] ∧
    (st.completed = ∅ → progressPct h e st = some 0) ∧
    ((∀ id ∈ (steps h e).map Step.id, id ∈ st.completed) → progressPct h e st = some 100) := by
  refine ⟨by simp [steps], fun h0 => ?_, fun hall => ?_⟩
  · rw [progressPct, if_neg (by rw [steps_length]; decide), h0, steps_length]
    norm_num [jsRound]
  · have heq : st.completed =
        {"overview", "setup", "sources", "configure", "build", "flash", "verify"} := by
      apply Finset.Subset.antisymm
      · intro x hx
        have hx2 := hsub x hx
        rw [steps_ids] at hx2
        simpa using hx2
      · intro x hx
        apply hall
        rw [steps_ids]
        simpa using hx
    have hcard : st.completed.card = 7 := by rw [heq]; decide
    rw [progressPct, if_neg (by rw [steps_length]; decide), hcard, steps_length]
    norm_num [jsRound]

/-- C6 witness: the two endpoints at concrete states. -/
theorem claim_C6_witness :
    progressPct host0 env0
      ⟨"overview", {"overview", "setup", "sources", "configure", "build", "flash", "verify"}⟩ =
      some 100 ∧
    progressPct host0 env0 initialState = some 0 :=
  ⟨(claim_C6 host0 env0
      ⟨"overview", {"overview", "setup", "sources", "configure", "build", "flash", "verify"}⟩
      (by decide)).2.2 (by decide),
   (claim_C6 host0 env0 initialState (by decide)).2.1 rfl⟩

/-- C8: malformed optional configuration never propagates an error: a
feature-flag value on which JSON.parse throws yields the empty fallback
structure, and every resource-link configuration value that is not a valid
absolute URL leaves its link absent from every step's link list — the
frontend and backend URLs feed the overview step's links and the API base
feeds the setup step's link; the WebSocket value produces no link at all
(`steps_link_cases`).  All modelled operations are total, so no error is
raised and rendering continues. -/
theorem claim_C8 (h : Host) (e : Env) :
    (h.jsonParse e.featureFlagsJson = none → featureFlags h e = emptyFlags) ∧
    (h.isValidUrl e.frontendUrl = false →
      ∀ s ∈ steps h e, "Frontend URL" ∉ s.links.map Link.label) ∧
    (h.isValidUrl e.backendUrl = false →
      ∀ s ∈ steps h e, "Backend URL" ∉ s.links.map Link.label) ∧
    (h.isValidUrl e.apiBase = false →
      ∀ s ∈ steps h e, "API Base" ∉ s.links.map Link.label) := by
  refine ⟨fun hp => ?_, fun hu s hs hmem => ?_, fun hu s hs hmem => ?_, fun hu s hs hmem => ?_⟩
  · by_cases hz : e.featureFlagsJson = ""
    · simp [featureFlags, parseJsonEnv, hz]
    · simp [featureFlags, parseJsonEnv, hz, hp]
  · obtain ⟨l, hl, hlab⟩ := List.mem_map.mp hmem
    rcases steps_link_cases h e s hs l hl with ⟨hEq, hne⟩ | ⟨hEq, hne⟩ | ⟨hEq, hne⟩
    · exact hne (safeUrl_invalid h e.frontendUrl hu)
    · rw [hEq] at hlab
      exact absurd hlab (show ("Backend URL" : String) = "Frontend URL" → False by decide)
    · rw [hEq] at hlab
      exact absurd hlab (show ("API Base" : String) = "Frontend URL" → False by decide)
  · obtain ⟨l, hl, hlab⟩ := List.mem_map.mp hmem
    rcases steps_link_cases h e s hs l hl with ⟨hEq, hne⟩ | ⟨hEq, hne⟩ | ⟨hEq, hne⟩
    · rw [hEq] at hlab
      exact absurd hlab (show ("Frontend URL" : String) = "Backend URL" → False by decide)
    · exact hne (safeUrl_invalid h e.backendUrl hu)
    · rw [hEq] at hlab
      exact absurd hlab (show ("API Base" : String) = "Backend URL" → False by decide)
  · obtain ⟨l, hl, hlab⟩ := List.mem_map.mp hmem
    rcases steps_link_cases h e s hs l hl with ⟨hEq, hne⟩ | ⟨hEq, hne⟩ | ⟨hEq, hne⟩
    · rw [hEq] at hlab
      exact absurd hlab (show ("Frontend URL" : String) = "API Base" → False by decide)
    · rw [hEq] at hlab
      exact absurd hlab (show ("Backend URL" : String) = "API Base" → False by decide)
    · exact hne (safeUrl_invalid h e.apiBase hu)

/-- C8 witness: a non-JSON flag value and three invalid URL values at a
concrete configuration; all three links are absent from their steps. -/
theorem claim_C8_witness :
    featureFlags host0 envBad = emptyFlags ∧
    "Frontend URL" ∉
      ((⟨"overview", "Overview", ["Goal", "Recommended prerequisites"], []⟩ : Step)).links.map
        Link.label ∧
    "Backend URL" ∉
      ((⟨"overview", "Overview", ["Goal", "Recommended prerequisites"], []⟩ : Step)).links.map
        Link.label ∧
    "API Base" ∉
      ((⟨"setup", "Set up environment", ["Install base tools", "Directory layout"],
        []⟩ : Step)).links.map Link.label :=
  ⟨(claim_C8 host0 envBad).1 rfl,
   (claim_C8 host0 envBad).2.1 rfl _ (by decide),
   (claim_C8 host0 envBad).2.2.1 rfl _ (by decide),
   (claim_C8 host0 envBad).2.2.2 rfl _ (by decide)⟩
